import Mathlib

/-
Verification of the SIMPLE lexical analyzer (SIMPLE.py).

The scanner is embedded shallowly: the master regex alternation of
TOKEN_SPECIFICATION becomes an ordered chain of matchers over `List Char`
(Python `re` alternation commits to the first alternative that matches at
the current position, each with its own greedy/lazy semantics), and the
`tokenize` loop becomes a fuel-indexed recursion threading the same state
(line number, line-start offset, token list, error list).  Character
classes follow the ASCII classes used by the source patterns.
-/

set_option maxRecDepth 4000

namespace SIMPLE

-- === Language definitions (SIMPLE.py lines 16-28) ===

def DATA_TYPES : List String :=
  ["int", "float", "char", "string", "text", "secure", "bool",
   "time", "date", "timestamp", "array", "collection"]

def KEYWORDS : List String :=
  ["if", "do", "end", "next", "return",
   "global", "local", "get", "show", "let", "store",
   "try", "handle"]

def RESERVED : List String := ["object", "for", "null", "main", "system", "error"]

def NOISE : List String := ["to", "then", "please", "do"]

-- === Character classes used by the regex patterns ===

def isIdentStart (c : Char) : Bool := c.isAlpha || c = '_'

def isIdentChar (c : Char) : Bool := c.isAlphanum || c = '_'

-- Python regex \s (ASCII subset relevant here)
def isSpaceChar (c : Char) : Bool :=
  c = ' ' || c = '\t' || c = '\n' || c = '\r' || c = '\x0b' || c = '\x0c'

-- === Individual pattern matchers (TOKEN_SPECIFICATION, lines 32-51) ===
-- Each matcher returns the matched lexeme at the head of the input, or none.

-- Non-greedy body of /* ... */ : everything up to and including the first "*/".
def findClose : List Char → Option (List Char)
  | [] => none
  | c :: rest =>
    if c = '*' ∧ rest.head? = some '/' then some ['*', '/']
    else (findClose rest).map (fun b => c :: b)

def matchMulti : List Char → Option (List Char)
  | c :: c2 :: rest =>
    if c = '/' ∧ c2 = '*' then (findClose rest).map (fun b => '/' :: '*' :: b)
    else none
  | _ => none

def matchSingle : List Char → Option (List Char)
  | c :: c2 :: rest =>
    if c = '/' ∧ c2 = '/' then some ('/' :: '/' :: rest.takeWhile (fun ch => ch ≠ '\n'))
    else none
  | _ => none

-- Body of a string literal after the opening quote: ([^"\]|\.)* followed by
-- the closing quote.  [^"\] matches any character except quote and
-- backslash (newlines included); \. matches a backslash followed by any
-- character except newline.
def stringBody : List Char → Option (List Char)
  | [] => none
  | c :: rest =>
    if c = '"' then some ['"']
    else if c = '\\' then
      match rest with
      | [] => none
      | c2 :: rest2 =>
        if c2 = '\n' then none
        else (stringBody rest2).map (fun b => c :: c2 :: b)
    else (stringBody rest).map (fun b => c :: b)

def matchString : List Char → Option (List Char)
  | c :: rest => if c = '"' then (stringBody rest).map (fun b => '"' :: b) else none
  | [] => none

def matchFloat (s : List Char) : Option (List Char) :=
  if s.takeWhile Char.isDigit = [] then none
  else
    match s.drop (s.takeWhile Char.isDigit).length with
    | '.' :: rest2 =>
      if rest2.takeWhile Char.isDigit = [] then none
      else some (s.takeWhile Char.isDigit ++ '.' :: rest2.takeWhile Char.isDigit)
    | _ => none

def matchInt (s : List Char) : Option (List Char) :=
  if s.takeWhile Char.isDigit = [] then none else some (s.takeWhile Char.isDigit)

-- Literal alternatives, tried in the order they appear in the pattern.
def litHere : List Char → List Char → Bool
  | [], _ => true
  | _ :: _, [] => false
  | p :: ps, c :: cs => p == c && litHere ps cs

def firstLit : List (List Char) → List Char → Option (List Char)
  | [], _ => none
  | p :: ps, s => if litHere p s then some p else firstLit ps s

def assignLits : List (List Char) :=
  ["+=".toList, "-=".toList, "*=".toList, "/=".toList, "%=".toList, "~=".toList, "=".toList]

def relLits : List (List Char) :=
  ["<=".toList, ">=".toList, "==".toList, "!=".toList, "<".toList, ">".toList]

def expLits : List (List Char) := ["**".toList, "^".toList]

def arithLits : List (List Char) := ["+".toList, "-".toList, "*".toList, "/".toList, "%".toList]

def unaryLits : List (List Char) := ["++".toList, "--".toList]

def logicalLits : List (List Char) := ["&&".toList, "||".toList, "!".toList]

def matchIdent : List Char → Option (List Char)
  | c :: rest => if isIdentStart c then some (c :: rest.takeWhile isIdentChar) else none
  | [] => none

def matchNewline : List Char → Option (List Char)
  | c :: _ => if c = '\n' then some ['\n'] else none
  | [] => none

def matchSkip (s : List Char) : Option (List Char) :=
  if s.takeWhile (fun c => c = ' ' || c = '\t') = [] then none
  else some (s.takeWhile (fun c => c = ' ' || c = '\t'))

-- Python "." : any single character except newline.
def matchAny : List Char → Option (List Char)
  | c :: _ => if c = '\n' then none else some [c]
  | [] => none

-- === The master regex: ordered alternation with first-match-wins ===

def tagKind (k : String) (r : Option (List Char)) : Option (String × List Char) :=
  r.map (fun v => (k, v))

def orTry (a b : Option (String × List Char)) : Option (String × List Char) :=
  match a with
  | some x => some x
  | none => b

def matchAt (s : List Char) : Option (String × List Char) :=
  orTry (tagKind "MULTI_COMMENT" (matchMulti s)) <|
  orTry (tagKind "SINGLE_COMMENT" (matchSingle s)) <|
  orTry (tagKind "STRING" (matchString s)) <|
  orTry (tagKind "FLOAT" (matchFloat s)) <|
  orTry (tagKind "INT" (matchInt s)) <|
  orTry (tagKind "ASSIGN_OP" (firstLit assignLits s)) <|
  orTry (tagKind "REL_OP" (firstLit relLits s)) <|
  orTry (tagKind "EXP_OP" (firstLit expLits s)) <|
  orTry (tagKind "ARITH_OP" (firstLit arithLits s)) <|
  orTry (tagKind "UNARY_OP" (firstLit unaryLits s)) <|
  orTry (tagKind "LOGICAL_OP" (firstLit logicalLits s)) <|
  orTry (tagKind "LPAREN" (firstLit [['(']] s)) <|
  orTry (tagKind "RPAREN" (firstLit [[')']] s)) <|
  orTry (tagKind "LBRACKET" (firstLit [['[']] s)) <|
  orTry (tagKind "RBRACKET" (firstLit [[']']] s)) <|
  orTry (tagKind "COLON" (firstLit [[':']] s)) <|
  orTry (tagKind "COMMA" (firstLit [[',']] s)) <|
  orTry (tagKind "SEMICOLON" (firstLit [[';']] s)) <|
  orTry (tagKind "IDENTIFIER" (matchIdent s)) <|
  orTry (tagKind "NEWLINE" (matchNewline s)) <|
  orTry (tagKind "SKIP" (matchSkip s)) <|
  tagKind "MISMATCH" (matchAny s)

-- === Token record (the dictionaries built by tokenize) ===

structure Token where
  type : String
  value : List Char
  raw : Option (List Char)
  line : Nat
  column : Int
deriving Repr, DecidableEq

-- The report writer reads t.get("raw", t.get("value", "")).
def rawLexeme (t : Token) : List Char := t.raw.getD t.value

-- === Helpers mirroring Python string operations ===

-- value.count("\n")
def countNl (l : List Char) : Nat := (l.filter (fun c => c == '\n')).length

-- value.rfind("\n"): index of the last newline, if any.
def lastNl : List Char → Option Nat
  | [] => none
  | c :: rest =>
    match lastNl rest with
    | some i => some (i + 1)
    | none => if c = '\n' then some 0 else none

def natChars (n : Nat) : List Char := Nat.toDigits 10 n

def intChars (i : Int) : List Char :=
  if i < 0 then '-' :: natChars i.natAbs else natChars i.toNat

-- f"Invalid token '{value}' at line {line_num}, column {column}"
def errMsg (v : List Char) (line : Nat) (col : Int) : List Char :=
  "Invalid token ".toList ++ '\'' :: v ++ '\'' :: " at line ".toList ++
    natChars line ++ ", column ".toList ++ intChars col

-- re.match(r"\s+do\b", code[next_index:]): one-or-more \s, then "do", then a
-- word boundary.  Returns m2.end() when it matches.
def toDoLookahead (s : List Char) : Option Nat :=
  if s.takeWhile isSpaceChar = [] then none
  else
    match s.drop (s.takeWhile isSpaceChar).length with
    | 'd' :: 'o' :: rest =>
      match rest.head? with
      | none => some ((s.takeWhile isSpaceChar).length + 2)
      | some c => if isIdentChar c then none else some ((s.takeWhile isSpaceChar).length + 2)
    | _ => none

-- === One iteration of the tokenize loop body (SIMPLE.py lines 100-169) ===
-- Given the matched kind and value, the emitted-so-far flag (len(tokens) > 0),
-- the rest of the input after the match (code[next_index:]), and the position
-- state, produce the appended token, the optionally appended error message,
-- and the new line number and line-start offset.

def processTok (kind : String) (value : List Char) (emitted : Bool) (rest : List Char)
    (lineNum lineStart pos : Nat) : Token × Option (List Char) × Nat × Nat :=
  let column : Int := (pos : Int) - (lineStart : Int) + 1
  if kind = "NEWLINE" then
    (⟨"NEWLINE", ['\n'], none, lineNum, column⟩, none, lineNum + 1, pos + value.length)
  else if kind = "SKIP" then
    (⟨"WHITESPACE", value, none, lineNum, column⟩, none, lineNum, lineStart)
  else if kind = "MULTI_COMMENT" then
    (⟨"COMMENT", value, none, lineNum, column⟩, none, lineNum + countNl value,
      if '\n' ∈ value then pos + ((lastNl value).getD 0) + 1 else lineStart)
  else if kind = "SINGLE_COMMENT" then
    (⟨"COMMENT", value, none, lineNum, column⟩, none, lineNum, lineStart)
  else if kind = "STRING" then
    (⟨"STRING", (value.drop 1).dropLast, some value, lineNum, column⟩, none, lineNum, lineStart)
  else if kind = "IDENTIFIER" then
    let low := value.map Char.toLower
    if low = "to".toList ∧ emitted = true then
      match toDoLookahead rest with
      | some skipLen =>
        (⟨"TO_DO", "to do".toList, none, lineNum, column⟩, none, lineNum,
          lineStart + skipLen - 1)
      | none => (⟨"IDENTIFIER", value, none, lineNum, column⟩, none, lineNum, lineStart)
    else if String.mk low ∈ DATA_TYPES then
      (⟨"DATATYPE", value, none, lineNum, column⟩, none, lineNum, lineStart)
    else if String.mk low ∈ KEYWORDS then
      (⟨"KEYWORD", value, none, lineNum, column⟩, none, lineNum, lineStart)
    else if String.mk low ∈ RESERVED then
      (⟨"RESERVED", value, none, lineNum, column⟩, none, lineNum, lineStart)
    else if String.mk low ∈ NOISE then
      (⟨"NOISE", value, none, lineNum, column⟩, none, lineNum, lineStart)
    else
      (⟨"IDENTIFIER", value, none, lineNum, column⟩, none, lineNum, lineStart)
  else if kind = "FLOAT" ∨ kind = "INT" then
    (⟨"NUMBER", value, none, lineNum, column⟩, none, lineNum, lineStart)
  else if kind = "MISMATCH" then
    (⟨"LEXICAL_ERROR", value, none, lineNum, column⟩,
      some (errMsg value lineNum column), lineNum, lineStart)
  else
    (⟨kind, value, none, lineNum, column⟩, none, lineNum, lineStart)

-- === The scan loop.  fuel bounds the number of iterations; every match
-- consumes at least one character, so fuel = length of the input suffices. ===

def tokenizeAux : Nat → List Char → Nat → Nat → Nat → List Token → List (List Char) →
    List Token × List (List Char)
  | 0, _, _, _, _, tokens, errors => (tokens, errors)
  | fuel + 1, s, pos, lineNum, lineStart, tokens, errors =>
    match matchAt s with
    | none => (tokens, errors)
    | some (kind, value) =>
      let r := processTok kind value (!tokens.isEmpty) (s.drop value.length)
        lineNum lineStart pos
      tokenizeAux fuel (s.drop value.length) (pos + value.length) r.2.2.1 r.2.2.2
        (tokens ++ [r.1]) (errors ++ r.2.1.toList)

def tokenize (code : List Char) : List Token × List (List Char) :=
  tokenizeAux code.length code 0 1 0 [] []

-- === Well-formedness of string lexemes, as the STRING pattern defines it ===

-- Content of a string literal: any run of units, where a unit is a single
-- character other than quote/backslash (newline allowed), or a backslash
-- followed by any character other than newline.  In particular no unescaped
-- quote can occur.
def contentOk : List Char → Bool
  | [] => true
  | c :: rest =>
    if c = '"' then false
    else if c = '\\' then
      match rest with
      | [] => false
      | c2 :: rest2 => (c2 != '\n') && contentOk rest2
    else contentOk rest

def isStringLexeme : List Char → Bool
  | [] => false
  | c :: rest =>
    (c == '"') && (rest != []) && (rest.getLast? == some '"') && contentOk rest.dropLast

-- Concatenation of the raw lexemes of a token list, in emission order
-- (string tokens contribute their raw quoted form, every other token its
-- value).
def concatRaw : List Token → List Char
  | [] => []
  | t :: ts => rawLexeme t ++ concatRaw ts

-- === Soundness of the individual matchers: a returned lexeme is a nonempty
-- prefix of the input, with the kind-specific shape facts needed later. ===

theorem takeWhile_self_append (p : Char → Bool) (l : List Char) :
    ∃ t, l = l.takeWhile p ++ t :=
  ⟨l.dropWhile p, (List.takeWhile_append_dropWhile p l).symm⟩

theorem drop_takeWhile_length (p : Char → Bool) (l : List Char) :
    l.drop (l.takeWhile p).length = l.dropWhile p := by
  induction l with
  | nil => simp
  | cons c rest ih =>
    by_cases h : p c
    · simp [List.takeWhile_cons, List.dropWhile_cons, h, ih]
    · simp [List.takeWhile_cons, List.dropWhile_cons, h]

theorem findClose_sound : ∀ (l b : List Char), findClose l = some b →
    (∃ t, l = b ++ t) ∧ b ≠ [] := by
  intro l
  induction l with
  | nil => intro b hb; simp [findClose] at hb
  | cons c rest ih =>
    intro b hb
    rw [findClose] at hb
    split at hb
    · rename_i hh
      obtain ⟨rfl, hh2⟩ := hh
      obtain ⟨rest2, rfl⟩ := List.head?_eq_some_iff.mp hh2
      obtain rfl : b = ['*', '/'] := by injection hb with hb2; exact hb2.symm
      exact ⟨⟨rest2, rfl⟩, by simp⟩
    · rcases Option.map_eq_some'.mp hb with ⟨b', hb', rfl⟩
      obtain ⟨⟨t, ht⟩, _⟩ := ih b' hb'
      exact ⟨⟨t, by rw [ht]; simp⟩, by simp⟩

theorem matchMulti_sound (s v : List Char) (h : matchMulti s = some v) :
    (∃ t, s = v ++ t) ∧ v ≠ [] := by
  match s with
  | [] => simp [matchMulti] at h
  | [c] => simp [matchMulti] at h
  | c :: c2 :: rest =>
    rw [matchMulti] at h
    split at h
    · rename_i hh
      obtain ⟨rfl, rfl⟩ := hh
      rcases Option.map_eq_some'.mp h with ⟨b, hb, rfl⟩
      obtain ⟨⟨t, ht⟩, _⟩ := findClose_sound rest b hb
      refine ⟨⟨t, ?_⟩, by simp⟩
      rw [ht]; simp
    · exact absurd h (by simp)

theorem matchSingle_sound (s v : List Char) (h : matchSingle s = some v) :
    (∃ t, s = v ++ t) ∧ v ≠ [] := by
  match s with
  | [] => simp [matchSingle] at h
  | [c] => simp [matchSingle] at h
  | c :: c2 :: rest =>
    rw [matchSingle] at h
    split at h
    · rename_i hh
      obtain ⟨rfl, rfl⟩ := hh
      obtain rfl := (Option.some_inj.mp h).symm
      obtain ⟨t, ht⟩ := takeWhile_self_append (fun ch => ch ≠ '\n') rest
      exact ⟨⟨t, by rw [List.cons_append, List.cons_append, ← ht]⟩, by simp⟩
    · exact absurd h (by simp)

theorem stringBody_sound : ∀ (n : Nat) (l : List Char), l.length ≤ n → ∀ b,
    stringBody l = some b →
    (∃ t, l = b ++ t) ∧ ∃ inner, b = inner ++ ['"'] ∧ contentOk inner = true := by
  intro n
  induction n with
  | zero =>
    intro l hl b hb
    rw [Nat.le_zero, List.length_eq_zero] at hl
    subst hl; simp [stringBody] at hb
  | succ n ih =>
    intro l hl b hb
    match l with
    | [] => simp [stringBody] at hb
    | c :: rest =>
      rw [stringBody.eq_def] at hb
      simp only at hb
      split at hb
      · rename_i hc; subst hc
        obtain rfl : b = ['"'] := by injection hb with hb2; exact hb2.symm
        exact ⟨⟨rest, rfl⟩, [], rfl, rfl⟩
      · split at hb
        · rename_i hc hc2; subst hc2
          match rest with
          | [] => simp at hb
          | c2 :: rest2 =>
            simp only at hb
            split at hb
            · simp at hb
            · rename_i hnl
              rcases Option.map_eq_some'.mp hb with ⟨b', hb', rfl⟩
              have hlen : rest2.length ≤ n := by
                simp only [List.length_cons] at hl; omega
              obtain ⟨⟨t, ht⟩, inner, hin, hco⟩ := ih rest2 hlen b' hb'
              refine ⟨⟨t, by rw [ht]; simp⟩, '\\' :: c2 :: inner, by rw [hin]; simp, ?_⟩
              rw [contentOk.eq_def]
              simp only
              rw [if_neg (by decide : ¬ ('\\' : Char) = '"')]
              simp [hnl, hco]
        · rename_i hc hc2
          rcases Option.map_eq_some'.mp hb with ⟨b', hb', rfl⟩
          have hlen : rest.length ≤ n := by
            simp only [List.length_cons] at hl; omega
          obtain ⟨⟨t, ht⟩, inner, hin, hco⟩ := ih rest hlen b' hb'
          refine ⟨⟨t, by rw [ht]; simp⟩, c :: inner, by rw [hin]; simp, ?_⟩
          rw [contentOk.eq_def]
          simp only
          simp [hc, hc2, hco]

theorem matchString_sound (s v : List Char) (h : matchString s = some v) :
    (∃ t, s = v ++ t) ∧ v ≠ [] ∧ isStringLexeme v = true := by
  match s with
  | [] => simp [matchString] at h
  | c :: rest =>
    rw [matchString] at h
    split at h
    · rename_i hc; subst hc
      rcases Option.map_eq_some'.mp h with ⟨b, hb, rfl⟩
      obtain ⟨⟨t, ht⟩, inner, hin, hco⟩ :=
        stringBody_sound rest.length rest le_rfl b hb
      refine ⟨⟨t, by rw [ht]; simp⟩, by simp, ?_⟩
      subst hin
      rw [isStringLexeme]
      simp [List.getLast?_concat, List.dropLast_concat, hco]
    · exact absurd h (by simp)

theorem matchFloat_sound (s v : List Char) (h : matchFloat s = some v) :
    (∃ t, s = v ++ t) ∧ v ≠ [] := by
  rw [matchFloat] at h
  split at h
  · exact absurd h (by simp)
  · rename_i hds
    split at h
    · rename_i rest2 hdrop
      split at h
      · exact absurd h (by simp)
      · rename_i hds2
        obtain rfl := (Option.some_inj.mp h).symm
        have hsplit : s = s.takeWhile Char.isDigit ++ '.' :: rest2 := by
          have h0 : s.takeWhile Char.isDigit ++
              s.drop (s.takeWhile Char.isDigit).length = s := by
            rw [drop_takeWhile_length]
            exact List.takeWhile_append_dropWhile Char.isDigit s
          rw [hdrop] at h0
          exact h0.symm
        refine ⟨⟨rest2.dropWhile Char.isDigit, ?_⟩, by simp [hds]⟩
        conv_lhs => rw [hsplit]
        have h1 : rest2 = rest2.takeWhile Char.isDigit ++ rest2.dropWhile Char.isDigit :=
          (List.takeWhile_append_dropWhile Char.isDigit rest2).symm
        conv_lhs => rw [h1]
        simp
    · exact absurd h (by simp)

theorem matchInt_sound (s v : List Char) (h : matchInt s = some v) :
    (∃ t, s = v ++ t) ∧ v ≠ [] := by
  rw [matchInt] at h
  split at h
  · exact absurd h (by simp)
  · rename_i hds
    obtain rfl := (Option.some_inj.mp h).symm
    exact ⟨takeWhile_self_append Char.isDigit s, hds⟩

theorem litHere_sound : ∀ (p s : List Char), litHere p s = true → ∃ t, s = p ++ t := by
  intro p
  induction p with
  | nil => intro s _; exact ⟨s, rfl⟩
  | cons c cs ih =>
    intro s h
    match s with
    | [] => simp [litHere] at h
    | d :: ds =>
      rw [litHere] at h
      simp only [Bool.and_eq_true, beq_iff_eq] at h
      obtain ⟨rfl, h2⟩ := h
      obtain ⟨t, ht⟩ := ih ds h2
      exact ⟨t, by rw [ht]; rfl⟩

theorem firstLit_sound : ∀ (ps : List (List Char)) (s v : List Char),
    firstLit ps s = some v → v ∈ ps ∧ ∃ t, s = v ++ t := by
  intro ps
  induction ps with
  | nil => intro s v h; simp [firstLit] at h
  | cons hd tl ih =>
    intro s v h
    rw [firstLit] at h
    split at h
    · rename_i hlit
      have hv : hd = v := Option.some_inj.mp h
      subst hv
      exact ⟨by simp, litHere_sound hd s hlit⟩
    · obtain ⟨hm, ht⟩ := ih s v h
      exact ⟨by simp [hm], ht⟩

theorem matchIdent_sound (s v : List Char) (h : matchIdent s = some v) :
    (∃ t, s = v ++ t) ∧ v ≠ [] := by
  match s with
  | [] => simp [matchIdent] at h
  | c :: rest =>
    rw [matchIdent] at h
    split at h
    · obtain rfl := (Option.some_inj.mp h).symm
      obtain ⟨t, ht⟩ := takeWhile_self_append isIdentChar rest
      exact ⟨⟨t, by rw [List.cons_append, ← ht]⟩, by simp⟩
    · exact absurd h (by simp)

theorem matchNewline_sound (s v : List Char) (h : matchNewline s = some v) :
    (∃ t, s = v ++ t) ∧ v = ['\n'] := by
  match s with
  | [] => simp [matchNewline] at h
  | c :: rest =>
    rw [matchNewline] at h
    split at h
    · rename_i hc; subst hc
      obtain rfl := (Option.some_inj.mp h).symm
      exact ⟨⟨rest, rfl⟩, rfl⟩
    · exact absurd h (by simp)

theorem matchSkip_sound (s v : List Char) (h : matchSkip s = some v) :
    (∃ t, s = v ++ t) ∧ v ≠ [] := by
  rw [matchSkip] at h
  split at h
  · exact absurd h (by simp)
  · rename_i hws
    obtain rfl := (Option.some_inj.mp h).symm
    exact ⟨takeWhile_self_append _ s, hws⟩

theorem matchAny_sound (s v : List Char) (h : matchAny s = some v) :
    (∃ t, s = v ++ t) ∧ v.length = 1 := by
  match s with
  | [] => simp [matchAny] at h
  | c :: rest =>
    rw [matchAny] at h
    split at h
    · exact absurd h (by simp)
    · obtain rfl := (Option.some_inj.mp h).symm
      exact ⟨⟨rest, rfl⟩, rfl⟩

-- === Soundness and totality of the master alternation ===

theorem orTry_some {a b : Option (String × List Char)} {x : String × List Char}
    (h : orTry a b = some x) : a = some x ∨ (a = none ∧ b = some x) := by
  cases a with
  | some y => exact Or.inl h
  | none => exact Or.inr ⟨rfl, h⟩

theorem orTry_none {a b : Option (String × List Char)}
    (h : orTry a b = none) : a = none ∧ b = none := by
  cases a with
  | some y => exact absurd h (by simp [orTry])
  | none => exact ⟨rfl, h⟩

theorem tagKind_some {k0 : String} {r : Option (List Char)} {k : String} {v : List Char}
    (h : tagKind k0 r = some (k, v)) : k = k0 ∧ r = some v := by
  cases r with
  | none => simp [tagKind] at h
  | some w =>
    simp only [tagKind, Option.map_some'] at h
    obtain ⟨h1, h2⟩ := Prod.mk.injEq .. ▸ Option.some_inj.mp h
    exact ⟨h1.symm, by rw [h2]⟩

theorem tagKind_none {k0 : String} {r : Option (List Char)}
    (h : tagKind k0 r = none) : r = none := by
  cases r with
  | none => rfl
  | some w => simp [tagKind] at h

theorem matchAt_sound (s : List Char) (k : String) (v : List Char)
    (h : matchAt s = some (k, v)) :
    v ≠ [] ∧ (∃ t, s = v ++ t) ∧ (k = "MISMATCH" → v.length = 1) ∧
    (k = "STRING" → isStringLexeme v = true) ∧ (k = "NEWLINE" → v = ['\n']) ∧
    k ≠ "LEXICAL_ERROR" := by
  rw [matchAt] at h
  rcases orTry_some h with h | ⟨-, h⟩
  · obtain ⟨rfl, hr⟩ := tagKind_some h
    obtain ⟨ht, hne⟩ := matchMulti_sound s v hr
    exact ⟨hne, ht, fun hc => absurd hc (by decide), fun hc => absurd hc (by decide),
      fun hc => absurd hc (by decide), by decide⟩
  rcases orTry_some h with h | ⟨-, h⟩
  · obtain ⟨rfl, hr⟩ := tagKind_some h
    obtain ⟨ht, hne⟩ := matchSingle_sound s v hr
    exact ⟨hne, ht, fun hc => absurd hc (by decide), fun hc => absurd hc (by decide),
      fun hc => absurd hc (by decide), by decide⟩
  rcases orTry_some h with h | ⟨-, h⟩
  · obtain ⟨rfl, hr⟩ := tagKind_some h
    obtain ⟨ht, hne, hstr⟩ := matchString_sound s v hr
    exact ⟨hne, ht, fun hc => absurd hc (by decide), fun _ => hstr,
      fun hc => absurd hc (by decide), by decide⟩
  rcases orTry_some h with h | ⟨-, h⟩
  · obtain ⟨rfl, hr⟩ := tagKind_some h
    obtain ⟨ht, hne⟩ := matchFloat_sound s v hr
    exact ⟨hne, ht, fun hc => absurd hc (by decide), fun hc => absurd hc (by decide),
      fun hc => absurd hc (by decide), by decide⟩
  rcases orTry_some h with h | ⟨-, h⟩
  · obtain ⟨rfl, hr⟩ := tagKind_some h
    obtain ⟨ht, hne⟩ := matchInt_sound s v hr
    exact ⟨hne, ht, fun hc => absurd hc (by decide), fun hc => absurd hc (by decide),
      fun hc => absurd hc (by decide), by decide⟩
  rcases orTry_some h with h | ⟨-, h⟩
  · obtain ⟨rfl, hr⟩ := tagKind_some h
    obtain ⟨hmem, ht⟩ := firstLit_sound assignLits s v hr
    exact ⟨(by decide : ∀ x ∈ assignLits, x ≠ []) v hmem, ht,
      fun hc => absurd hc (by decide), fun hc => absurd hc (by decide),
      fun hc => absurd hc (by decide), by decide⟩
  rcases orTry_some h with h | ⟨-, h⟩
  · obtain ⟨rfl, hr⟩ := tagKind_some h
    obtain ⟨hmem, ht⟩ := firstLit_sound relLits s v hr
    exact ⟨(by decide : ∀ x ∈ relLits, x ≠ []) v hmem, ht,
      fun hc => absurd hc (by decide), fun hc => absurd hc (by decide),
      fun hc => absurd hc (by decide), by decide⟩
  rcases orTry_some h with h | ⟨-, h⟩
  · obtain ⟨rfl, hr⟩ := tagKind_some h
    obtain ⟨hmem, ht⟩ := firstLit_sound expLits s v hr
    exact ⟨(by decide : ∀ x ∈ expLits, x ≠ []) v hmem, ht,
      fun hc => absurd hc (by decide), fun hc => absurd hc (by decide),
      fun hc => absurd hc (by decide), by decide⟩
  rcases orTry_some h with h | ⟨-, h⟩
  · obtain ⟨rfl, hr⟩ := tagKind_some h
    obtain ⟨hmem, ht⟩ := firstLit_sound arithLits s v hr
    exact ⟨(by decide : ∀ x ∈ arithLits, x ≠ []) v hmem, ht,
      fun hc => absurd hc (by decide), fun hc => absurd hc (by decide),
      fun hc => absurd hc (by decide), by decide⟩
  rcases orTry_some h with h | ⟨-, h⟩
  · obtain ⟨rfl, hr⟩ := tagKind_some h
    obtain ⟨hmem, ht⟩ := firstLit_sound unaryLits s v hr
    exact ⟨(by decide : ∀ x ∈ unaryLits, x ≠ []) v hmem, ht,
      fun hc => absurd hc (by decide), fun hc => absurd hc (by decide),
      fun hc => absurd hc (by decide), by decide⟩
  rcases orTry_some h with h | ⟨-, h⟩
  · obtain ⟨rfl, hr⟩ := tagKind_some h
    obtain ⟨hmem, ht⟩ := firstLit_sound logicalLits s v hr
    exact ⟨(by decide : ∀ x ∈ logicalLits, x ≠ []) v hmem, ht,
      fun hc => absurd hc (by decide), fun hc => absurd hc (by decide),
      fun hc => absurd hc (by decide), by decide⟩
  rcases orTry_some h with h | ⟨-, h⟩
  · obtain ⟨rfl, hr⟩ := tagKind_some h
    obtain ⟨hmem, ht⟩ := firstLit_sound [['(']] s v hr
    exact ⟨(by decide : ∀ x ∈ [[('(' : Char)]], x ≠ []) v hmem, ht,
      fun hc => absurd hc (by decide), fun hc => absurd hc (by decide),
      fun hc => absurd hc (by decide), by decide⟩
  rcases orTry_some h with h | ⟨-, h⟩
  · obtain ⟨rfl, hr⟩ := tagKind_some h
    obtain ⟨hmem, ht⟩ := firstLit_sound [[')']] s v hr
    exact ⟨(by decide : ∀ x ∈ [[(')' : Char)]], x ≠ []) v hmem, ht,
      fun hc => absurd hc (by decide), fun hc => absurd hc (by decide),
      fun hc => absurd hc (by decide), by decide⟩
  rcases orTry_some h with h | ⟨-, h⟩
  · obtain ⟨rfl, hr⟩ := tagKind_some h
    obtain ⟨hmem, ht⟩ := firstLit_sound [['[']] s v hr
    exact ⟨(by decide : ∀ x ∈ [[('[' : Char)]], x ≠ []) v hmem, ht,
      fun hc => absurd hc (by decide), fun hc => absurd hc (by decide),
      fun hc => absurd hc (by decide), by decide⟩
  rcases orTry_some h with h | ⟨-, h⟩
  · obtain ⟨rfl, hr⟩ := tagKind_some h
    obtain ⟨hmem, ht⟩ := firstLit_sound [[']']] s v hr
    exact ⟨(by decide : ∀ x ∈ [[(']' : Char)]], x ≠ []) v hmem, ht,
      fun hc => absurd hc (by decide), fun hc => absurd hc (by decide),
      fun hc => absurd hc (by decide), by decide⟩
  rcases orTry_some h with h | ⟨-, h⟩
  · obtain ⟨rfl, hr⟩ := tagKind_some h
    obtain ⟨hmem, ht⟩ := firstLit_sound [[':']] s v hr
    exact ⟨(by decide : ∀ x ∈ [[(':' : Char)]], x ≠ []) v hmem, ht,
      fun hc => absurd hc (by decide), fun hc => absurd hc (by decide),
      fun hc => absurd hc (by decide), by decide⟩
  rcases orTry_some h with h | ⟨-, h⟩
  · obtain ⟨rfl, hr⟩ := tagKind_some h
    obtain ⟨hmem, ht⟩ := firstLit_sound [[',']] s v hr
    exact ⟨(by decide : ∀ x ∈ [[(',' : Char)]], x ≠ []) v hmem, ht,
      fun hc => absurd hc (by decide), fun hc => absurd hc (by decide),
      fun hc => absurd hc (by decide), by decide⟩
  rcases orTry_some h with h | ⟨-, h⟩
  · obtain ⟨rfl, hr⟩ := tagKind_some h
    obtain ⟨hmem, ht⟩ := firstLit_sound [[';']] s v hr
    exact ⟨(by decide : ∀ x ∈ [[(';' : Char)]], x ≠ []) v hmem, ht,
      fun hc => absurd hc (by decide), fun hc => absurd hc (by decide),
      fun hc => absurd hc (by decide), by decide⟩
  rcases orTry_some h with h | ⟨-, h⟩
  · obtain ⟨rfl, hr⟩ := tagKind_some h
    obtain ⟨ht, hne⟩ := matchIdent_sound s v hr
    exact ⟨hne, ht, fun hc => absurd hc (by decide), fun hc => absurd hc (by decide),
      fun hc => absurd hc (by decide), by decide⟩
  rcases orTry_some h with h | ⟨-, h⟩
  · obtain ⟨rfl, hr⟩ := tagKind_some h
    obtain ⟨ht, hwl⟩ := matchNewline_sound s v hr
    exact ⟨by simp [hwl], ht, fun hc => absurd hc (by decide),
      fun hc => absurd hc (by decide), fun _ => hwl, by decide⟩
  rcases orTry_some h with h | ⟨-, h⟩
  · obtain ⟨rfl, hr⟩ := tagKind_some h
    obtain ⟨ht, hne⟩ := matchSkip_sound s v hr
    exact ⟨hne, ht, fun hc => absurd hc (by decide), fun hc => absurd hc (by decide),
      fun hc => absurd hc (by decide), by decide⟩
  · obtain ⟨rfl, hr⟩ := tagKind_some h
    obtain ⟨ht, hlen⟩ := matchAny_sound s v hr
    exact ⟨fun hnil => by simp [hnil] at hlen, ht, fun _ => hlen,
      fun hc => absurd hc (by decide), fun hc => absurd hc (by decide), by decide⟩

theorem matchAt_nil : matchAt [] = none := rfl

theorem matchAt_progress (c : Char) (rest : List Char) :
    matchAt (c :: rest) ≠ none := by
  intro h
  rw [matchAt] at h
  iterate 19 obtain ⟨-, h⟩ := orTry_none h
  obtain ⟨hn, h⟩ := orTry_none h
  obtain ⟨-, hmm⟩ := orTry_none h
  by_cases hc : c = '\n'
  · subst hc
    have hn2 := tagKind_none hn
    rw [matchNewline] at hn2
    simp at hn2
  · have hm2 := tagKind_none hmm
    rw [matchAny] at hm2
    simp [hc] at hm2

theorem matchAt_none_nil (s : List Char) (h : matchAt s = none) : s = [] := by
  match s with
  | [] => rfl
  | c :: rest => exact absurd h (matchAt_progress c rest)

-- === Shape facts about one loop-body step ===

set_option maxHeartbeats 2000000 in
theorem processTok_spec (k : String) (v : List Char) (e : Bool) (r : List Char)
    (ln ls pos : Nat) (hk : k ≠ "LEXICAL_ERROR") (hnl : k = "NEWLINE" → v = ['\n']) :
    ((processTok k v e r ln ls pos).1.type = "LEXICAL_ERROR" ∧
       (processTok k v e r ln ls pos).2.1 =
         some (errMsg (processTok k v e r ln ls pos).1.value
           (processTok k v e r ln ls pos).1.line
           (processTok k v e r ln ls pos).1.column) ∨
     (processTok k v e r ln ls pos).1.type ≠ "LEXICAL_ERROR" ∧
       (processTok k v e r ln ls pos).2.1 = none) ∧
    ((processTok k v e r ln ls pos).1.type = "LEXICAL_ERROR" →
       k = "MISMATCH" ∧ (processTok k v e r ln ls pos).1.value = v) ∧
    ((processTok k v e r ln ls pos).1.type ≠ "TO_DO" →
       rawLexeme (processTok k v e r ln ls pos).1 = v) ∧
    ((processTok k v e r ln ls pos).1.type = "STRING" → k = "STRING") := by
  by_cases h1 : k = "NEWLINE"
  · subst h1
    obtain rfl := hnl rfl
    simp [processTok, rawLexeme]
  by_cases h2 : k = "SKIP"
  · subst h2; simp [processTok, rawLexeme]
  by_cases h3 : k = "MULTI_COMMENT"
  · subst h3; simp [processTok, rawLexeme]
  by_cases h4 : k = "SINGLE_COMMENT"
  · subst h4; simp [processTok, rawLexeme]
  by_cases h5 : k = "STRING"
  · subst h5; simp [processTok, rawLexeme]
  by_cases h6 : k = "IDENTIFIER"
  · subst h6
    by_cases hto : List.map Char.toLower v = ['t', 'o'] ∧ e = true
    · cases hla : toDoLookahead r with
      | none => simp [processTok, hto, hla, rawLexeme]
      | some skipLen => simp [processTok, hto, hla, rawLexeme]
    · by_cases hd1 : String.mk (List.map Char.toLower v) ∈ DATA_TYPES
      · simp [processTok, hto, hd1, rawLexeme]
      by_cases hd2 : String.mk (List.map Char.toLower v) ∈ KEYWORDS
      · simp [processTok, hto, hd1, hd2, rawLexeme]
      by_cases hd3 : String.mk (List.map Char.toLower v) ∈ RESERVED
      · simp [processTok, hto, hd1, hd2, hd3, rawLexeme]
      by_cases hd4 : String.mk (List.map Char.toLower v) ∈ NOISE
      · simp [processTok, hto, hd1, hd2, hd3, hd4, rawLexeme]
      · simp [processTok, hto, hd1, hd2, hd3, hd4, rawLexeme]
  by_cases h7 : k = "FLOAT" ∨ k = "INT"
  · simp [processTok, h1, h2, h3, h4, h5, h6, h7, rawLexeme]
  by_cases h8 : k = "MISMATCH"
  · subst h8; simp [processTok, rawLexeme]
  · simp [processTok, h1, h2, h3, h4, h5, h6, h7, h8, hk, rawLexeme]

theorem tokenizeAux_step (fuel : Nat) (s : List Char) (pos lineNum lineStart : Nat)
    (tokens : List Token) (errors : List (List Char)) (k : String) (v : List Char)
    (hm : matchAt s = some (k, v)) :
    tokenizeAux (fuel + 1) s pos lineNum lineStart tokens errors =
      tokenizeAux fuel (s.drop v.length) (pos + v.length)
        (processTok k v (!tokens.isEmpty) (s.drop v.length) lineNum lineStart pos).2.2.1
        (processTok k v (!tokens.isEmpty) (s.drop v.length) lineNum lineStart pos).2.2.2
        (tokens ++ [(processTok k v (!tokens.isEmpty) (s.drop v.length) lineNum lineStart pos).1])
        (errors ++
          (processTok k v (!tokens.isEmpty) (s.drop v.length) lineNum lineStart pos).2.1.toList) := by
  simp only [tokenizeAux, hm]

-- === The master invariant of the scan loop ===

theorem tokenizeAux_spec (fuel : Nat) : ∀ (s : List Char) (pos lineNum lineStart : Nat)
    (tokens : List Token) (errors : List (List Char)),
    ∃ newT newE,
      tokenizeAux fuel s pos lineNum lineStart tokens errors =
        (tokens ++ newT, errors ++ newE) ∧
      newE = (newT.filter (fun t => t.type == "LEXICAL_ERROR")).map
        (fun t => errMsg t.value t.line t.column) ∧
      (∀ t ∈ newT, t.type = "LEXICAL_ERROR" → t.value.length = 1) ∧
      (∀ t ∈ newT, t.type = "STRING" → isStringLexeme (rawLexeme t) = true) ∧
      (s.length ≤ fuel → (∀ t ∈ newT, t.type ≠ "TO_DO") → concatRaw newT = s) := by
  induction fuel with
  | zero =>
    intro s pos ln ls toks errs
    refine ⟨[], [], by simp [tokenizeAux], rfl, by simp, by simp, fun hf _ => ?_⟩
    have hs : s = [] := List.length_eq_zero.mp (Nat.le_zero.mp hf)
    simp [hs, concatRaw]
  | succ fuel ih =>
    intro s pos ln ls toks errs
    cases hm : matchAt s with
    | none =>
      have hs : s = [] := matchAt_none_nil s hm
      refine ⟨[], [], by simp [tokenizeAux, hm], rfl, by simp, by simp, fun _ _ => ?_⟩
      simp [hs, concatRaw]
    | some kv =>
      obtain ⟨k, v⟩ := kv
      obtain ⟨hne, ⟨trest, hts⟩, hmis, hstr, hnl, hklex⟩ := matchAt_sound s k v hm
      have hstep := tokenizeAux_step fuel s pos ln ls toks errs k v hm
      obtain ⟨hP1, hP2, hP3, hP4⟩ :=
        processTok_spec k v (!toks.isEmpty) (s.drop v.length) ln ls pos hklex hnl
      set P := processTok k v (!toks.isEmpty) (s.drop v.length) ln ls pos with hPdef
      obtain ⟨newT', newE', hEq, hCorr, hLen, hStr, hRecon⟩ :=
        ih (s.drop v.length) (pos + v.length) P.2.2.1 P.2.2.2
          (toks ++ [P.1]) (errs ++ P.2.1.toList)
      refine ⟨P.1 :: newT', P.2.1.toList ++ newE', ?_, ?_, ?_, ?_, ?_⟩
      · rw [hstep, hEq]; simp
      · rcases hP1 with ⟨hlex, herr⟩ | ⟨hnlex, herr⟩
        · rw [herr, hCorr, List.filter_cons]
          simp [hlex]
        · rw [herr, hCorr, List.filter_cons]
          simp [hnlex]
      · intro t htm htlex
        rcases List.mem_cons.mp htm with rfl | hmem
        · obtain ⟨hkm, hval⟩ := hP2 htlex
          rw [hval]
          exact hmis hkm
        · exact hLen t hmem htlex
      · intro t htm htstr
        rcases List.mem_cons.mp htm with rfl | hmem
        · have hks := hP4 htstr
          subst hks
          rw [hP3 (by simp [htstr])]
          exact hstr rfl
        · exact hStr t hmem htstr
      · intro hf hNo
        have hlenv : 1 ≤ v.length := by
          cases v with
          | nil => exact absurd rfl hne
          | cons c cs => simp
        have hdroplen : (s.drop v.length).length ≤ fuel := by
          rw [List.length_drop]
          omega
        have hhead : P.1.type ≠ "TO_DO" := hNo P.1 (List.mem_cons_self P.1 newT')
        have hraw : rawLexeme P.1 = v := hP3 hhead
        have htail := hRecon hdroplen (fun t ht => hNo t (List.mem_cons_of_mem _ ht))
        show rawLexeme P.1 ++ concatRaw newT' = s
        rw [hraw, htail, hts, List.drop_left]

-- Any fuel of at least the input length yields the same scan result: the
-- loop never runs out of steps, so the scan is total.

theorem tokenizeAux_fuel (n : Nat) : ∀ (fuel : Nat) (s : List Char) (pos ln ls : Nat)
    (toks : List Token) (errs : List (List Char)), s.length ≤ n → n ≤ fuel →
    tokenizeAux fuel s pos ln ls toks errs = tokenizeAux n s pos ln ls toks errs := by
  induction n with
  | zero =>
    intro fuel s pos ln ls toks errs hs hf
    have hnil : s = [] := List.length_eq_zero.mp (Nat.le_zero.mp hs)
    subst hnil
    cases fuel with
    | zero => rfl
    | succ f => simp [tokenizeAux, matchAt_nil]
  | succ n ih =>
    intro fuel s pos ln ls toks errs hs hf
    obtain ⟨f, rfl⟩ : ∃ f, fuel = f + 1 := ⟨fuel - 1, by omega⟩
    cases hm : matchAt s with
    | none => simp [tokenizeAux, hm]
    | some kv =>
      obtain ⟨k, v⟩ := kv
      obtain ⟨hne, ⟨trest, hts⟩, -, -, -, -⟩ := matchAt_sound s k v hm
      rw [tokenizeAux_step f s pos ln ls toks errs k v hm,
          tokenizeAux_step n s pos ln ls toks errs k v hm]
      have hlenv : 1 ≤ v.length := by
        cases v with
        | nil => exact absurd rfl hne
        | cons c cs => simp
      apply ih
      · rw [List.length_drop]; omega
      · omega

-- === Claim theorems ===

/-- C1 (counterexample): concatenating raw lexemes does not reconstruct the
input when the "to do" merge fires: scanning "x to do" emits a TO_DO token
whose lexeme is "to do" although the underlying match only consumed "to",
and the following whitespace and "do" are emitted again as their own
tokens, so the concatenation is "x to do do". -/
theorem reconstruction_fails_on_to_do :
    concatRaw (tokenize "x to do".toList).1 ≠ "x to do".toList := by decide

/-- C1 (amended): for every input on which the scanner emits no TO_DO
token, concatenating the raw lexeme of every emitted token (the raw quoted
form for string tokens) in emission order reconstructs the input exactly. -/
theorem reconstruction_without_to_do (code : List Char)
    (h : ∀ t ∈ (tokenize code).1, t.type ≠ "TO_DO") :
    concatRaw (tokenize code).1 = code := by
  obtain ⟨newT, newE, hEq, -, -, -, hRecon⟩ :=
    tokenizeAux_spec code.length code 0 1 0 [] []
  have h1 : (tokenize code).1 = newT := by rw [tokenize, hEq]; rfl
  rw [h1] at h ⊢
  exact hRecon le_rfl h

theorem reconstruction_without_to_do_witness :
    concatRaw (tokenize "a@b /*c*/ \"s\"".toList).1 = "a@b /*c*/ \"s\"".toList :=
  reconstruction_without_to_do ("a@b /*c*/ \"s\"".toList) (by decide)

/-- C2 (code evaluation at the failing input): scanning "to   do" does not
yield a single ToDo token; the buffer-initial "to" is classified as Noise
because the merge requires a previously emitted token, and even mid-buffer
(in "x to do") the TO_DO token is emitted while the following whitespace
and "do" are still emitted separately (with columns shifted by the
line-start adjustment). -/
theorem to_do_phrase_behavior :
    (tokenize "to   do".toList).1 =
      [⟨"NOISE", "to".toList, none, 1, 1⟩,
       ⟨"WHITESPACE", "   ".toList, none, 1, 3⟩,
       ⟨"KEYWORD", "do".toList, none, 1, 6⟩] ∧
    (tokenize "x to do".toList).1 =
      [⟨"IDENTIFIER", "x".toList, none, 1, 1⟩,
       ⟨"WHITESPACE", " ".toList, none, 1, 2⟩,
       ⟨"TO_DO", "to do".toList, none, 1, 3⟩,
       ⟨"WHITESPACE", " ".toList, none, 1, 3⟩,
       ⟨"KEYWORD", "do".toList, none, 1, 4⟩] := by decide

/-- C3 (counterexample): the word "do" occurs in both the Keyword table and
the Noise table, so the four classification tables are not pairwise
disjoint. -/
theorem tables_overlap_on_do : "do" ∈ KEYWORDS ∧ "do" ∈ NOISE := by decide

/-- C3 (amended): the four classification tables are pairwise disjoint
except for the single word "do", which occurs in both the Keyword and the
Noise table. -/
theorem tables_disjoint_except_do :
    DATA_TYPES.inter KEYWORDS = [] ∧ DATA_TYPES.inter RESERVED = [] ∧
    DATA_TYPES.inter NOISE = [] ∧ KEYWORDS.inter RESERVED = [] ∧
    RESERVED.inter NOISE = [] ∧ KEYWORDS.inter NOISE = ["do"] := by decide

/-- C4 (code evaluation at the failing input): because the assignment
pattern (which ends with a bare "=") is listed before the relational
pattern, scanning "==" yields two assignment-operator tokens, each with
lexeme "=", not a single relational token. -/
theorem double_equals_mis_split :
    (tokenize "==".toList).1 =
      [⟨"ASSIGN_OP", "=".toList, none, 1, 1⟩,
       ⟨"ASSIGN_OP", "=".toList, none, 1, 2⟩] ∧
    (tokenize "a==b".toList).1 =
      [⟨"IDENTIFIER", "a".toList, none, 1, 1⟩,
       ⟨"ASSIGN_OP", "=".toList, none, 1, 2⟩,
       ⟨"ASSIGN_OP", "=".toList, none, 1, 3⟩,
       ⟨"IDENTIFIER", "b".toList, none, 1, 4⟩] := by decide

/-- C5 (code evaluation at the failing input): because the arithmetic
pattern is listed before the unary increment/decrement pattern, scanning
"++" (or "--") yields two single-character arithmetic-operator tokens, not
one two-character unary token. -/
theorem increment_mis_split :
    (tokenize "++".toList).1 =
      [⟨"ARITH_OP", "+".toList, none, 1, 1⟩,
       ⟨"ARITH_OP", "+".toList, none, 1, 2⟩] ∧
    (tokenize "--".toList).1 =
      [⟨"ARITH_OP", "-".toList, none, 1, 1⟩,
       ⟨"ARITH_OP", "-".toList, none, 1, 2⟩] := by decide

/-- C6 (counterexample): the string-literal pattern accepts a literal
newline inside the quotes, so a string token's lexeme can contain a raw
newline: scanning the five characters quote a newline b quote yields one
STRING token whose raw lexeme contains a newline. -/
theorem string_lexeme_with_newline :
    (tokenize "\"a\nb\"".toList).1 =
      [⟨"STRING", "a\nb".toList, some "\"a\nb\"".toList, 1, 1⟩] ∧
    '\n' ∈ rawLexeme ⟨"STRING", "a\nb".toList, some "\"a\nb\"".toList, 1, 1⟩ := by decide

/-- C6 (amended): every STRING token's raw lexeme is a double-quoted
literal whose content contains no unescaped quote and no backslash before
a newline, but may contain literal newline characters; and the STRING
branch of the scan loop leaves the line number and line-start offset
unchanged, so line/column tracking does not account for newlines inside a
string token. -/
theorem string_rule_shape :
    (∀ (code : List Char) (t : Token), t ∈ (tokenize code).1 → t.type = "STRING" →
      isStringLexeme (rawLexeme t) = true) ∧
    (∀ (fuel : Nat) (s : List Char) (pos lineNum lineStart : Nat)
       (tokens : List Token) (errors : List (List Char)) (v : List Char),
      matchAt s = some ("STRING", v) →
      tokenizeAux (fuel + 1) s pos lineNum lineStart tokens errors =
        tokenizeAux fuel (s.drop v.length) (pos + v.length) lineNum lineStart
          (tokens ++ [⟨"STRING", (v.drop 1).dropLast, some v, lineNum,
            (pos : Int) - (lineStart : Int) + 1⟩]) errors) := by
  constructor
  · intro code t htm htstr
    obtain ⟨newT, newE, hEq, -, -, hStr, -⟩ :=
      tokenizeAux_spec code.length code 0 1 0 [] []
    have h1 : (tokenize code).1 = newT := by rw [tokenize, hEq]; rfl
    rw [h1] at htm
    exact hStr t htm htstr
  · intro fuel s pos ln ls toks errs v hm
    rw [tokenizeAux_step fuel s pos ln ls toks errs "STRING" v hm]
    simp [processTok]

theorem string_rule_shape_witness :
    isStringLexeme (rawLexeme ⟨"STRING", "a\nb".toList, some "\"a\nb\"".toList, 1, 1⟩) =
      true :=
  string_rule_shape.1 ("\"a\nb\"".toList)
    ⟨"STRING", "a\nb".toList, some "\"a\nb\"".toList, 1, 1⟩ (by decide) rfl

/-- C7: a block-comment match advances the line counter by exactly the
number of embedded newlines and recomputes the line-start offset from the
last embedded newline of the match (leaving it unchanged when the comment
has no newline); consequently scanning "/*x\ny*/z" reports the comment at
line 1 column 1 and the following token z at line 2 with column 4,
computed relative to the comment's last embedded newline. -/
theorem multi_comment_line_tracking :
    (∀ (fuel : Nat) (s : List Char) (pos lineNum lineStart : Nat)
       (tokens : List Token) (errors : List (List Char)) (v : List Char),
      matchAt s = some ("MULTI_COMMENT", v) →
      tokenizeAux (fuel + 1) s pos lineNum lineStart tokens errors =
        tokenizeAux fuel (s.drop v.length) (pos + v.length) (lineNum + countNl v)
          (if '\n' ∈ v then pos + ((lastNl v).getD 0) + 1 else lineStart)
          (tokens ++ [⟨"COMMENT", v, none, lineNum, (pos : Int) - (lineStart : Int) + 1⟩])
          errors) ∧
    (tokenize "/*x\ny*/z".toList).1 =
      [⟨"COMMENT", "/*x\ny*/".toList, none, 1, 1⟩,
       ⟨"IDENTIFIER", "z".toList, none, 2, 4⟩] := by
  constructor
  · intro fuel s pos ln ls toks errs v hm
    rw [tokenizeAux_step fuel s pos ln ls toks errs "MULTI_COMMENT" v hm]
    simp [processTok]
  · decide

theorem multi_comment_line_tracking_witness :
    tokenizeAux 1 ("/*x\ny*/z".toList) 0 1 0 [] [] =
      tokenizeAux 0 (("/*x\ny*/z".toList).drop ("/*x\ny*/".toList).length)
        (0 + ("/*x\ny*/".toList).length) (1 + countNl "/*x\ny*/".toList)
        (if '\n' ∈ "/*x\ny*/".toList then 0 + ((lastNl "/*x\ny*/".toList).getD 0) + 1 else 0)
        ([] ++ [⟨"COMMENT", "/*x\ny*/".toList, none, 1, (0 : Int) - (0 : Int) + 1⟩]) [] :=
  multi_comment_line_tracking.1 0 ("/*x\ny*/z".toList) 0 1 0 [] []
    ("/*x\ny*/".toList) (by decide)

/-- C8: the recorded error messages correspond one-to-one, in order, with
the emitted LEXICAL_ERROR tokens: the error list equals the LEXICAL_ERROR
tokens mapped through the message format Invalid token ... at line ...,
column ... built from the same character, line and column; and every
LEXICAL_ERROR token holds exactly one character. -/
theorem lexical_error_correspondence (code : List Char) :
    (tokenize code).2 =
      ((tokenize code).1.filter (fun t => t.type == "LEXICAL_ERROR")).map
        (fun t => errMsg t.value t.line t.column) ∧
    (∀ t ∈ (tokenize code).1, t.type = "LEXICAL_ERROR" → t.value.length = 1) := by
  obtain ⟨newT, newE, hEq, hCorr, hLen, -, -⟩ :=
    tokenizeAux_spec code.length code 0 1 0 [] []
  have h1 : (tokenize code).1 = newT := by rw [tokenize, hEq]; rfl
  have h2 : (tokenize code).2 = newE := by rw [tokenize, hEq]; rfl
  rw [h1, h2]
  exact ⟨hCorr, hLen⟩

theorem lexical_error_correspondence_witness :
    (tokenize "a@b".toList).2 =
      ((tokenize "a@b".toList).1.filter (fun t => t.type == "LEXICAL_ERROR")).map
        (fun t => errMsg t.value t.line t.column) :=
  (lexical_error_correspondence ("a@b".toList)).1

/-- C9: the scan is total and deterministic: it returns a (token, error)
pair for every input, the empty input yields empty outputs, and any fuel
bound of at least the input length produces the same result as the scan
itself, so the bounded loop never fails to finish and identical inputs
yield identical outputs. -/
theorem tokenize_total_deterministic :
    tokenize [] = ([], []) ∧
    ∀ (code : List Char) (fuel : Nat), code.length ≤ fuel →
      tokenizeAux fuel code 0 1 0 [] [] = tokenize code := by
  refine ⟨rfl, fun code fuel hf => ?_⟩
  rw [tokenize]
  exact tokenizeAux_fuel code.length fuel code 0 1 0 [] [] le_rfl hf

theorem tokenize_total_deterministic_witness :
    tokenizeAux 17 ("a\nb".toList) 0 1 0 [] [] = tokenize ("a\nb".toList) :=
  tokenize_total_deterministic.2 ("a\nb".toList) 17 (by decide)

/-- C10: when the very first match of the buffer is an identifier whose
lowercase form is "to", the emitted first token is a NOISE token with the
original text at line 1 column 1 - never a TO_DO token - because the merge
requires at least one previously emitted token. -/
theorem buffer_initial_to_is_noise (code v : List Char)
    (hm : matchAt code = some ("IDENTIFIER", v))
    (hlow : v.map Char.toLower = "to".toList) :
    ((tokenize code).1).head? = some ⟨"NOISE", v, none, 1, 1⟩ := by
  obtain ⟨hne, ⟨trest, hts⟩, -, -, -, -⟩ := matchAt_sound code "IDENTIFIER" v hm
  have hlenv : 1 ≤ v.length := by
    cases v with
    | nil => exact absurd rfl hne
    | cons c cs => simp
  have hlen : 1 ≤ code.length := by
    rw [hts, List.length_append]
    omega
  obtain ⟨n, hn⟩ : ∃ n, code.length = n + 1 := ⟨code.length - 1, by omega⟩
  have hlow' : v.map Char.toLower = ['t', 'o'] := hlow
  have hm1 : ¬ ((⟨['t', 'o']⟩ : String) ∈ DATA_TYPES) := by decide
  have hm2 : ¬ ((⟨['t', 'o']⟩ : String) ∈ KEYWORDS) := by decide
  have hm3 : ¬ ((⟨['t', 'o']⟩ : String) ∈ RESERVED) := by decide
  have hm4 : (⟨['t', 'o']⟩ : String) ∈ NOISE := by decide
  have hP : processTok "IDENTIFIER" v (!(([] : List Token).isEmpty))
      (code.drop v.length) 1 0 0 = (⟨"NOISE", v, none, 1, 1⟩, none, 1, 0) := by
    simp [processTok, hlow', hm1, hm2, hm3, hm4]
  rw [tokenize, hn, tokenizeAux_step n code 0 1 0 [] [] "IDENTIFIER" v hm, hP]
  obtain ⟨newT, newE, hEq, -, -, -, -⟩ :=
    tokenizeAux_spec n (code.drop v.length) (0 + v.length) 1 0
      ([] ++ [⟨"NOISE", v, none, 1, 1⟩]) ([] ++ Option.toList none)
  rw [hEq]
  simp

theorem buffer_initial_to_is_noise_witness :
    ((tokenize "to do".toList).1).head? = some ⟨"NOISE", "to".toList, none, 1, 1⟩ :=
  buffer_initial_to_is_noise ("to do".toList) ("to".toList) (by decide) (by decide)

end SIMPLE
